import Mathlib

/-!
Verification of the `gen` package's pair combinator (`gen/pair.go`) of the
propx property-based testing library.

The Go code is shallowly embedded:

* a Go `Shrinker[T]` (a stateful closure `func(accept bool) (T, bool)`) is
  modelled as an explicit state type `σ` together with a transition function
  `σ → Bool → T × Bool × σ`;
* a Go generator body `func(r *rand.Rand, sz Size) (T, Shrinker[T])` is
  modelled as a pure function that threads the rng state explicitly
  (`*rand.Rand` is a mutable stream; the claims assume the component
  generators are pure with respect to the rng state and size, which the
  functional embedding encodes);
* `PairOf`'s nil-rng check `if r == nil { r = rand.New(rand.NewSource(rand.Int63())) }`
  is modelled by passing the generator an `Option Rng` plus an explicit
  `nilSub : Rng` standing for the fresh source the Go code seeds from the
  process-global generator at that moment.
-/

namespace Propx

/-- Size hint carrying min and max bounds (gen.Size). -/
structure Size where
  min : Nat
  max : Nat
deriving DecidableEq, Repr

/-- Pair of values of types A and B (gen.Pair). -/
structure Pair (α β : Type) where
  first : α
  second : β
deriving DecidableEq, Repr

instance [Inhabited α] [Inhabited β] : Inhabited (Pair α β) := ⟨⟨default, default⟩⟩

/-- Transition function of a shrinker: from a closure state and the `accept`
signal, produce the candidate, the `more` flag and the next closure state. -/
def ShrinkFn (σ α : Type) : Type := σ → Bool → α × Bool × σ

/-- A shrinker instance: the Go closure's captured state plus its body. -/
structure Shrinker (σ α : Type) where
  state : σ
  next : ShrinkFn σ α

/-- One call to the shrinker closure. -/
def Shrinker.step (s : Shrinker σ α) (accept : Bool) : α × Bool × Shrinker σ α :=
  ((s.next s.state accept).1, (s.next s.state accept).2.1,
   ⟨(s.next s.state accept).2.2, s.next⟩)

/-- Run a shrinker on a list of `accept` inputs, collecting each call's
`(candidate, more)` output and returning the final shrinker instance. -/
def runShrinker (s : Shrinker σ α) : List Bool → List (α × Bool) × Shrinker σ α
  | [] => ([], s)
  | acc :: rest =>
      (((s.step acc).1, (s.step acc).2.1) :: (runShrinker (s.step acc).2.2 rest).1,
       (runShrinker (s.step acc).2.2 rest).2)

/-- State captured by the closure returned by `PairOf`: the Go locals
`shrinkingFirst`, `currentA`, `currentB` and the states of the two component
shrinker closures `sa` and `sb`. -/
structure PairShrinkState (σa σb α β : Type) where
  shrinkingFirst : Bool
  currentA : α
  currentB : β
  sa : σa
  sb : σb

/-- Body of the shrinker closure returned by `PairOf` (gen/pair.go lines
48-69), translated clause by clause: while `shrinkingFirst`, call `sa` with
the caller's `accept`; on a candidate, record it in `currentA` and emit it
paired with `currentB`; on exhaustion, clear `shrinkingFirst`, force
`accept = false`, and fall through to `sb`; afterwards call `sb`, recording
candidates in `currentB`; when both are exhausted return the zero pair and
`false`. -/
def pairShrinkNext [Inhabited α] [Inhabited β]
    (nextA : ShrinkFn σa α) (nextB : ShrinkFn σb β) :
    ShrinkFn (PairShrinkState σa σb α β) (Pair α β) :=
  fun st accept =>
    if st.shrinkingFirst then
      let res := nextA st.sa accept
      if res.2.1 then
        (⟨res.1, st.currentB⟩, true,
         { st with currentA := res.1, sa := res.2.2 })
      else
        let st1 : PairShrinkState σa σb α β :=
          { st with shrinkingFirst := false, sa := res.2.2 }
        let res2 := nextB st1.sb false
        if res2.2.1 then
          (⟨st1.currentA, res2.1⟩, true,
           { st1 with currentB := res2.1, sb := res2.2.2 })
        else
          (⟨default, default⟩, false, { st1 with sb := res2.2.2 })
    else
      let res := nextB st.sb accept
      if res.2.1 then
        (⟨st.currentA, res.1⟩, true,
         { st with currentB := res.1, sb := res.2.2 })
      else
        (⟨default, default⟩, false, { st with sb := res.2.2 })

/-- The shrinker instance `PairOf` returns right after generating `(a, b)`:
`shrinkingFirst = true`, `currentA = a`, `currentB = b`, and the two freshly
generated component shrinkers. -/
def mkPairShrinker [Inhabited α] [Inhabited β]
    (sa : Shrinker σa α) (sb : Shrinker σb β) (a : α) (b : β) :
    Shrinker (PairShrinkState σa σb α β) (Pair α β) :=
  ⟨⟨true, a, b, sa.state, sb.state⟩, pairShrinkNext sa.next sb.next⟩

/-- A component generator body: from an rng state and a size, produce the
value, its shrinker, and the advanced rng state (the Go code mutates the
shared `*rand.Rand`, modelled by threading). -/
def GenFn (Rng σ α : Type) : Type := Rng → Size → α × Shrinker σ α × Rng

/-- The generator returned by `PairOf(ga, gb)` (gen/pair.go lines 30-71).
`r?` is the caller's `*rand.Rand` (`none` = Go `nil`); `nilSub` models the
fresh source `rand.New(rand.NewSource(rand.Int63()))` that the code
substitutes when `r == nil`. Both component generators are then run on the
same (threaded) rng, and the pair is returned with `mkPairShrinker`. -/
def PairOf [Inhabited α] [Inhabited β]
    (ga : GenFn Rng σa α) (gb : GenFn Rng σb β)
    (nilSub : Rng) (r? : Option Rng) (sz : Size) :
    Pair α β × Shrinker (PairShrinkState σa σb α β) (Pair α β) × Rng :=
  let r := r?.getD nilSub
  let resA := ga r sz
  let resB := gb resA.2.2 sz
  (⟨resA.1, resB.1⟩, mkPairShrinker resA.2.1 resB.2.1 resA.1 resB.1, resB.2.2)

/-- Tuple is an alias for Pair (gen/pair.go line 74). -/
abbrev Tuple (α β : Type) := Pair α β

/-- TupleOf is an alias for PairOf (gen/pair.go lines 77-79). -/
def TupleOf [Inhabited α] [Inhabited β]
    (ga : GenFn Rng σa α) (gb : GenFn Rng σb β)
    (nilSub : Rng) (r? : Option Rng) (sz : Size) :
    Tuple α β × Shrinker (PairShrinkState σa σb α β) (Tuple α β) × Rng :=
  PairOf ga gb nilSub r? sz

/-- Instrumented shrinker transition: behaves like `next` on the first state
component and additionally appends every `accept` value it is invoked with to
a log kept in the second component. Used to observe which `accept` signals a
combinator passes to a component shrinker. -/
def logNext (next : ShrinkFn σ α) : ShrinkFn (σ × List Bool) α :=
  fun s acc =>
    ((next s.1 acc).1, (next s.1 acc).2.1, ((next s.1 acc).2.2, s.2 ++ [acc]))

/-- The first component of the most recently emitted candidate in a pair
shrinker trace, defaulting to `a` when no candidate has been emitted. -/
def lastEmittedFirst (a : α) (outs : List (Pair α β × Bool)) : α :=
  outs.foldl (fun c o => if o.2 then o.1.first else c) a

/-- A concrete generator used to show the nil-rng path is not reproducible:
it returns the current rng state as the value and advances the state. -/
def rngGen : GenFn Nat Unit Nat :=
  fun r _ => (r, ⟨(), fun u _ => (0, false, u)⟩, r + 1)

/-- A concrete shrinker transition that emits the single candidate 5 on its
first call and reports exhaustion afterwards. -/
def oneShotNextA : ShrinkFn Nat Nat :=
  fun s _ => if s = 0 then (5, true, 1) else (0, false, s)

/-- A concrete shrinker transition that emits the single candidate 3 on its
first call and reports exhaustion afterwards. -/
def oneShotNextB : ShrinkFn Nat Nat :=
  fun s _ => if s = 0 then (3, true, 1) else (0, false, s)

/-- Concrete generator: always produces 10 with the one-shot shrinker to 5. -/
def gaC2 : GenFn Nat Nat Nat := fun r _ => (10, ⟨0, oneShotNextA⟩, r)

/-- Concrete generator: always produces 7 with the one-shot shrinker to 3. -/
def gbC2 : GenFn Nat Nat Nat := fun r _ => (7, ⟨0, oneShotNextB⟩, r)

/-- Concrete pair shrinker instance returned by PairOf for the generated pair
(10, 7): the first component shrinks once to 5, the second once to 3. -/
def c2Inst : Shrinker (PairShrinkState Nat Nat Nat Nat) (Pair Nat Nat) :=
  (PairOf gaC2 gbC2 0 (some 0) ⟨0, 0⟩).2.1

/-- A shrinker transition that reports exhaustion on every call. -/
def neverNext : ShrinkFn Unit Nat := fun u _ => (0, false, u)

/-- A constant generator with a shrinker that is immediately exhausted,
mirroring gen.Const. -/
def constGen (v : Nat) : GenFn Nat Unit Nat := fun r _ => (v, ⟨(), neverNext⟩, r)

/-- A shrinker transition counting down: from state s+1 it emits s, from 0 it
reports exhaustion. -/
def countdownNext : ShrinkFn Nat Nat :=
  fun s _ => match s with
    | 0 => (0, false, 0)
    | k + 1 => (k, true, k)

/-- A generator producing 2 with the countdown shrinker. -/
def countGen : GenFn Nat Nat Nat := fun r _ => (2, ⟨2, countdownNext⟩, r)

/-- Exhaustion within a uniform bound: every run on `n` accept inputs
contains an output whose `more` flag is false. For a finitely-branching
accept space this is equivalent to reaching `(_, false)` in finitely many
steps along every accept path. -/
def exhaustsWithin (s : Shrinker σ α) (n : Nat) : Prop :=
  ∀ l : List Bool, l.length = n → ∃ out ∈ (runShrinker s l).1, out.2 = false

/-- Every call made from state `s` onwards reports `more = false`. -/
def allFalseFrom (next : ShrinkFn σ α) (s : σ) : Prop :=
  ∀ l : List Bool, ∀ out ∈ (runShrinker ⟨s, next⟩ l).1, out.2 = false

/-- The shrinker contract's stickiness: after a call returns `more = false`,
every further call returns `false`. -/
def deadAfterFalse (next : ShrinkFn σ α) : Prop :=
  ∀ s acc, (next s acc).2.1 = false → allFalseFrom next (next s acc).2.2

/- Basic run lemmas. -/

theorem runShrinker_nil (s : Shrinker σ α) : runShrinker s [] = ([], s) := rfl

theorem runShrinker_cons (f : ShrinkFn σ α) (st : σ) (acc : Bool) (rest : List Bool) :
    runShrinker ⟨st, f⟩ (acc :: rest) =
      (((f st acc).1, (f st acc).2.1) :: (runShrinker ⟨(f st acc).2.2, f⟩ rest).1,
       (runShrinker ⟨(f st acc).2.2, f⟩ rest).2) := rfl

theorem runShrinker_next_const (s : Shrinker σ α) (l : List Bool) :
    (runShrinker s l).2.next = s.next := by
  induction l generalizing s with
  | nil => rfl
  | cons a t ih => exact ih _

theorem runShrinker_append (s : Shrinker σ α) (l₁ l₂ : List Bool) :
    runShrinker s (l₁ ++ l₂) =
      ((runShrinker s l₁).1 ++ (runShrinker (runShrinker s l₁).2 l₂).1,
       (runShrinker (runShrinker s l₁).2 l₂).2) := by
  induction l₁ generalizing s with
  | nil => rfl
  | cons a t ih =>
      simp only [List.cons_append, runShrinker, ih, List.append_eq]

/- Step characterizations of the three branches of the pair shrinker body. -/

theorem pairShrinkNext_phase1_emit [Inhabited α] [Inhabited β]
    (nextA : ShrinkFn σa α) (nextB : ShrinkFn σb β)
    (st : PairShrinkState σa σb α β) (acc : Bool)
    (h : st.shrinkingFirst = true) (he : (nextA st.sa acc).2.1 = true) :
    pairShrinkNext nextA nextB st acc =
      (⟨(nextA st.sa acc).1, st.currentB⟩, true,
       { st with currentA := (nextA st.sa acc).1, sa := (nextA st.sa acc).2.2 }) := by
  simp [pairShrinkNext, h, he]

theorem pairShrinkNext_switch [Inhabited α] [Inhabited β]
    (nextA : ShrinkFn σa α) (nextB : ShrinkFn σb β)
    (st : PairShrinkState σa σb α β) (acc : Bool)
    (h : st.shrinkingFirst = true) (he : (nextA st.sa acc).2.1 = false) :
    pairShrinkNext nextA nextB st acc =
      (if (nextB st.sb false).2.1 then
         (⟨st.currentA, (nextB st.sb false).1⟩, true,
          { shrinkingFirst := false, currentA := st.currentA,
            currentB := (nextB st.sb false).1,
            sa := (nextA st.sa acc).2.2, sb := (nextB st.sb false).2.2 })
       else
         (⟨default, default⟩, false,
          { shrinkingFirst := false, currentA := st.currentA,
            currentB := st.currentB,
            sa := (nextA st.sa acc).2.2, sb := (nextB st.sb false).2.2 })) := by
  simp [pairShrinkNext, h, he]

theorem pairShrinkNext_phase2 [Inhabited α] [Inhabited β]
    (nextA : ShrinkFn σa α) (nextB : ShrinkFn σb β)
    (st : PairShrinkState σa σb α β) (acc : Bool)
    (h : st.shrinkingFirst = false) :
    pairShrinkNext nextA nextB st acc =
      (if (nextB st.sb acc).2.1 then
         (⟨st.currentA, (nextB st.sb acc).1⟩, true,
          { st with currentB := (nextB st.sb acc).1, sb := (nextB st.sb acc).2.2 })
       else
         (⟨default, default⟩, false, { st with sb := (nextB st.sb acc).2.2 })) := by
  simp [pairShrinkNext, h]

/-- Invariant of the second phase: once `shrinkingFirst` is false, running the
pair shrinker leaves `shrinkingFirst` false, never changes `currentA` or the
first component's shrinker state `sa`, and every emitted candidate has first
component `currentA`. -/
theorem pairShrink_secondPhase [Inhabited α] [Inhabited β]
    (nextA : ShrinkFn σa α) (nextB : ShrinkFn σb β) (l : List Bool)
    (st : PairShrinkState σa σb α β) (h : st.shrinkingFirst = false) :
    (runShrinker ⟨st, pairShrinkNext nextA nextB⟩ l).2.state.shrinkingFirst = false ∧
    (runShrinker ⟨st, pairShrinkNext nextA nextB⟩ l).2.state.currentA = st.currentA ∧
    (runShrinker ⟨st, pairShrinkNext nextA nextB⟩ l).2.state.sa = st.sa ∧
    ∀ out ∈ (runShrinker ⟨st, pairShrinkNext nextA nextB⟩ l).1,
      out.2 = true → out.1.first = st.currentA := by
  induction l generalizing st with
  | nil => exact ⟨h, rfl, rfl, by intro out hout; cases hout⟩
  | cons acc t ih =>
      rw [runShrinker_cons, pairShrinkNext_phase2 nextA nextB st acc h]
      by_cases hb : (nextB st.sb acc).2.1 = true
      · simp only [hb, if_true]
        obtain ⟨i1, i2, i3, i4⟩ :=
          ih { st with currentB := (nextB st.sb acc).1, sb := (nextB st.sb acc).2.2 } h
        refine ⟨i1, i2, i3, ?_⟩
        intro out hout
        rcases List.mem_cons.mp hout with hh | hm
        · subst hh; intro _; rfl
        · exact i4 out hm
      · simp only [hb, if_false, Bool.not_eq_true] at *
        simp only [hb, Bool.false_eq_true, if_false]
        obtain ⟨i1, i2, i3, i4⟩ := ih { st with sb := (nextB st.sb acc).2.2 } h
        refine ⟨i1, i2, i3, ?_⟩
        intro out hout
        rcases List.mem_cons.mp hout with hh | hm
        · subst hh; intro hfalse; cases hfalse
        · exact i4 out hm

theorem runShrinker_cons_any (s : Shrinker σ α) (acc : Bool) (rest : List Bool) :
    runShrinker s (acc :: rest) =
      (((s.step acc).1, (s.step acc).2.1) :: (runShrinker (s.step acc).2.2 rest).1,
       (runShrinker (s.step acc).2.2 rest).2) := rfl

theorem runShrinker_snd_eta (s : Shrinker σ α) (l : List Bool) :
    (runShrinker s l).2 = ⟨(runShrinker s l).2.state, s.next⟩ := by
  rw [← runShrinker_next_const s l]

theorem run_snoc_state (next : ShrinkFn σ α) (s0 : σ) (p : List Bool) (acc : Bool) :
    (runShrinker ⟨s0, next⟩ (p ++ [acc])).2.state =
      (next (runShrinker ⟨s0, next⟩ p).2.state acc).2.2 := by
  rw [runShrinker_append, runShrinker_snd_eta ⟨s0, next⟩ p]
  rfl

/-- The candidate a shrinker emits from the state reached after `p` appears,
with its `more` flag, among the outputs of the run on `p ++ [acc]`. -/
theorem run_snoc_emit (next : ShrinkFn σ α) (s0 : σ) (p : List Bool) (acc : Bool) :
    ((next (runShrinker ⟨s0, next⟩ p).2.state acc).1,
     (next (runShrinker ⟨s0, next⟩ p).2.state acc).2.1) ∈
      (runShrinker ⟨s0, next⟩ (p ++ [acc])).1 := by
  rw [runShrinker_append, runShrinker_snd_eta ⟨s0, next⟩ p]
  refine List.mem_append_right _ ?_
  exact List.mem_cons_self _ _

theorem exhaustsWithin_zero_absurd (s : Shrinker σ α) (h : exhaustsWithin s 0) : False := by
  obtain ⟨out, hmem, -⟩ := h [] rfl
  cases hmem

theorem exhaustsWithin_step (s : Shrinker σ α) (n : Nat) (h : exhaustsWithin s (n + 1))
    (acc : Bool) (hok : (s.next s.state acc).2.1 = true) :
    exhaustsWithin ⟨(s.next s.state acc).2.2, s.next⟩ n := by
  intro l hl
  obtain ⟨out, hmem, hfalse⟩ := h (acc :: l) (by simp [hl])
  rw [runShrinker_cons_any] at hmem
  rcases List.mem_cons.mp hmem with hh | hm
  · exfalso
    rw [hh] at hfalse
    have : (s.next s.state acc).2.1 = false := hfalse
    rw [hok] at this
    cases this
  · exact ⟨out, hm, hfalse⟩

theorem exhaustsWithin_mono (s : Shrinker σ α) (m n : Nat) (hmn : m ≤ n)
    (h : exhaustsWithin s m) : exhaustsWithin s n := by
  intro l hl
  obtain ⟨out, hmem, hfalse⟩ := h (l.take m) (by rw [List.length_take, hl]; exact Nat.min_eq_left hmn)
  refine ⟨out, ?_, hfalse⟩
  have hsplit : l = l.take m ++ l.drop m := (List.take_append_drop m l).symm
  rw [hsplit, runShrinker_append]
  exact List.mem_append_left _ hmem

/-- Unfolding of `mkPairShrinker` into its components. -/
theorem mkPairShrinker_def [Inhabited α] [Inhabited β]
    (sa : Shrinker σa α) (sb : Shrinker σb β) (a : α) (b : β) :
    mkPairShrinker sa sb a b =
      ⟨⟨true, a, b, sa.state, sb.state⟩, pairShrinkNext sa.next sb.next⟩ := rfl

/-- Invariant of the first phase: as long as the final state still has
`shrinkingFirst = true` (ga's shrinker has not reported exhaustion), the run
never changed `currentB` and every output's second component is the starting
`currentB`. -/
theorem pairShrink_firstPhase_secondConst [Inhabited α] [Inhabited β]
    (nextA : ShrinkFn σa α) (nextB : ShrinkFn σb β) (l : List Bool)
    (st : PairShrinkState σa σb α β)
    (h2 : (runShrinker ⟨st, pairShrinkNext nextA nextB⟩ l).2.state.shrinkingFirst = true) :
    (runShrinker ⟨st, pairShrinkNext nextA nextB⟩ l).2.state.currentB = st.currentB ∧
    ∀ out ∈ (runShrinker ⟨st, pairShrinkNext nextA nextB⟩ l).1,
      out.1.second = st.currentB := by
  induction l generalizing st with
  | nil => exact ⟨rfl, by intro out hout; cases hout⟩
  | cons acc t ih =>
      cases hsf : st.shrinkingFirst with
      | false =>
          exfalso
          have habs := (pairShrink_secondPhase nextA nextB (acc :: t) st hsf).1
          rw [habs] at h2
          cases h2
      | true =>
          cases ha : (nextA st.sa acc).2.1 with
          | true =>
              rw [runShrinker_cons, pairShrinkNext_phase1_emit nextA nextB st acc hsf ha] at h2 ⊢
              obtain ⟨i1, i2⟩ :=
                ih { st with currentA := (nextA st.sa acc).1, sa := (nextA st.sa acc).2.2 } h2
              refine ⟨i1, ?_⟩
              intro out hout
              rcases List.mem_cons.mp hout with hh | hm
              · subst hh; rfl
              · exact i2 out hm
          | false =>
              exfalso
              rw [runShrinker_cons] at h2
              have hfalse : (pairShrinkNext nextA nextB st acc).2.2.shrinkingFirst = false := by
                rw [pairShrinkNext_switch nextA nextB st acc hsf ha]
                split <;> rfl
              have habs := (pairShrink_secondPhase nextA nextB t
                (pairShrinkNext nextA nextB st acc).2.2 hfalse).1
              rw [habs] at h2
              cases h2

/-- Tracking lemma: after any run of the pair shrinker, `currentA` equals the
first component of the most recently emitted candidate (the starting
`currentA` when no candidate was emitted). -/
theorem pairShrink_currentA_lastEmitted [Inhabited α] [Inhabited β]
    (nextA : ShrinkFn σa α) (nextB : ShrinkFn σb β) (l : List Bool)
    (st : PairShrinkState σa σb α β) :
    (runShrinker ⟨st, pairShrinkNext nextA nextB⟩ l).2.state.currentA =
      lastEmittedFirst st.currentA (runShrinker ⟨st, pairShrinkNext nextA nextB⟩ l).1 := by
  induction l generalizing st with
  | nil => rfl
  | cons acc t ih =>
      rw [runShrinker_cons]
      cases hsf : st.shrinkingFirst with
      | true =>
          cases ha : (nextA st.sa acc).2.1 with
          | true =>
              rw [pairShrinkNext_phase1_emit nextA nextB st acc hsf ha]
              exact ih { st with currentA := (nextA st.sa acc).1, sa := (nextA st.sa acc).2.2 }
          | false =>
              rw [pairShrinkNext_switch nextA nextB st acc hsf ha]
              by_cases hb : (nextB st.sb false).2.1 = true
              · simp only [hb, if_true]
                exact ih _
              · simp only [hb, if_false, Bool.not_eq_true] at *
                simp only [hb, Bool.false_eq_true, if_false]
                exact ih _
      | false =>
          rw [pairShrinkNext_phase2 nextA nextB st acc hsf]
          by_cases hb : (nextB st.sb acc).2.1 = true
          · simp only [hb, if_true]
            exact ih _
          · simp only [hb, if_false, Bool.not_eq_true] at *
            simp only [hb, Bool.false_eq_true, if_false]
            exact ih _

/-- C1: for every pair of generators and every pair generated by PairOf,
every candidate emitted by the pair's shrinker before ga's shrinker reports
exhaustion (i.e. in runs after which `shrinkingFirst` still holds) has its
second component equal to the originally generated second value. -/
theorem pairOf_no_second_change_before_exhaust [Inhabited α] [Inhabited β]
    (ga : GenFn Rng σa α) (gb : GenFn Rng σb β)
    (nilSub : Rng) (r? : Option Rng) (sz : Size) (l : List Bool)
    (h : (runShrinker (PairOf ga gb nilSub r? sz).2.1 l).2.state.shrinkingFirst = true) :
    ∀ out ∈ (runShrinker (PairOf ga gb nilSub r? sz).2.1 l).1,
      out.1.second = (PairOf ga gb nilSub r? sz).1.second :=
  (pairShrink_firstPhase_secondConst
    (ga (r?.getD nilSub) sz).2.1.next
    (gb (ga (r?.getD nilSub) sz).2.2 sz).2.1.next l
    ⟨true, (ga (r?.getD nilSub) sz).1, (gb (ga (r?.getD nilSub) sz).2.2 sz).1,
     (ga (r?.getD nilSub) sz).2.1.state,
     (gb (ga (r?.getD nilSub) sz).2.2 sz).2.1.state⟩ h).2

/-- Witness for C1 at a concrete instance: one shrinking call on the pair
(10, 7); ga's shrinker is not yet exhausted and the emitted candidate (5, 7)
keeps the second component 7. -/
theorem pairOf_no_second_change_before_exhaust_witness :
    (runShrinker c2Inst [true]).2.state.shrinkingFirst = true ∧
    ∀ out ∈ (runShrinker c2Inst [true]).1, out.1.second = 7 :=
  ⟨rfl, pairOf_no_second_change_before_exhaust gaC2 gbC2 0 (some 0) ⟨0, 0⟩ [true] rfl⟩

/-- C2 is false on the code: run the concrete pair shrinker for (10, 7) on
accepts [true, false]. The first call emits the candidate (5, 7); the second
call's accept=false rejects it; ga's shrinker is exhausted on the second call
(final shrinkingFirst is false) and the candidate then emitted is (5, 3): its
first component is 5, the value of the rejected candidate, although the last
accepted first-component value is the originally generated 10 (no
first-component candidate was ever accepted). -/
theorem pairOf_reject_descent_counterexample :
    (runShrinker c2Inst [true, false]).1 = [(⟨5, 7⟩, true), (⟨5, 3⟩, true)] ∧
    (runShrinker c2Inst [true, false]).2.state.shrinkingFirst = false ∧
    (5 : Nat) ≠ 10 :=
  ⟨rfl, rfl, by decide⟩

/-- Auxiliary form of the amended C2 over an arbitrary pair shrinker
instance: after a run in which ga's shrinker was exhausted, `currentA` is the
first component of the most recently emitted candidate (`a` if none), and
every candidate emitted by any continuation keeps that first component. -/
theorem pairShrink_first_fixed_aux [Inhabited α] [Inhabited β]
    (sa : Shrinker σa α) (sb : Shrinker σb β) (a : α) (b : β) (l : List Bool)
    (h : (runShrinker (mkPairShrinker sa sb a b) l).2.state.shrinkingFirst = false) :
    (runShrinker (mkPairShrinker sa sb a b) l).2.state.currentA =
      lastEmittedFirst a (runShrinker (mkPairShrinker sa sb a b) l).1 ∧
    ∀ l2 : List Bool,
      ∀ out ∈ (runShrinker (runShrinker (mkPairShrinker sa sb a b) l).2 l2).1,
        out.2 = true →
        out.1.first = lastEmittedFirst a (runShrinker (mkPairShrinker sa sb a b) l).1 := by
  have hA := pairShrink_currentA_lastEmitted sa.next sb.next l ⟨true, a, b, sa.state, sb.state⟩
  have hnext : (runShrinker (mkPairShrinker sa sb a b) l).2.next =
      pairShrinkNext sa.next sb.next := runShrinker_next_const _ _
  have hS : (runShrinker (mkPairShrinker sa sb a b) l).2 =
      ⟨(runShrinker (mkPairShrinker sa sb a b) l).2.state, pairShrinkNext sa.next sb.next⟩ := by
    rw [← hnext]
  refine ⟨hA, ?_⟩
  intro l2 out hout htrue
  rw [hS] at hout
  have h4 := (pairShrink_secondPhase sa.next sb.next l2
    (runShrinker (mkPairShrinker sa sb a b) l).2.state h).2.2.2 out hout htrue
  rw [h4]
  exact hA

/-- C2 (amended): in the shrinker returned by PairOf, once ga's shrinker is
exhausted, every subsequently emitted candidate's first component equals the
first component of the last candidate emitted before the switch — the last
first-component value proposed by ga's shrinker regardless of whether it was
accepted or rejected, or the originally generated first value if no candidate
was ever emitted — not the last accepted first-component value. -/
theorem pairOf_first_fixed_after_exhaust [Inhabited α] [Inhabited β]
    (ga : GenFn Rng σa α) (gb : GenFn Rng σb β)
    (nilSub : Rng) (r? : Option Rng) (sz : Size) (l : List Bool)
    (h : (runShrinker (PairOf ga gb nilSub r? sz).2.1 l).2.state.shrinkingFirst = false) :
    (runShrinker (PairOf ga gb nilSub r? sz).2.1 l).2.state.currentA =
      lastEmittedFirst (PairOf ga gb nilSub r? sz).1.first
        (runShrinker (PairOf ga gb nilSub r? sz).2.1 l).1 ∧
    ∀ l2 : List Bool,
      ∀ out ∈ (runShrinker (runShrinker (PairOf ga gb nilSub r? sz).2.1 l).2 l2).1,
        out.2 = true →
        out.1.first =
          lastEmittedFirst (PairOf ga gb nilSub r? sz).1.first
            (runShrinker (PairOf ga gb nilSub r? sz).2.1 l).1 :=
  pairShrink_first_fixed_aux
    (ga (r?.getD nilSub) sz).2.1
    (gb (ga (r?.getD nilSub) sz).2.2 sz).2.1
    (ga (r?.getD nilSub) sz).1
    (gb (ga (r?.getD nilSub) sz).2.2 sz).1 l h

/-- Witness for the amended C2 at the concrete instance: after the run
[true, false] the switch has happened, currentA is 5 — the last emitted (and
rejected) first-component candidate — and all further emitted candidates
keep first component 5. -/
theorem pairOf_first_fixed_after_exhaust_witness :
    (runShrinker c2Inst [true, false]).2.state.shrinkingFirst = false ∧
    ((runShrinker c2Inst [true, false]).2.state.currentA =
      lastEmittedFirst 10 (runShrinker c2Inst [true, false]).1 ∧
    ∀ l2 : List Bool,
      ∀ out ∈ (runShrinker (runShrinker c2Inst [true, false]).2 l2).1,
        out.2 = true →
        out.1.first = lastEmittedFirst 10 (runShrinker c2Inst [true, false]).1) :=
  ⟨rfl, pairOf_first_fixed_after_exhaust gaC2 gbC2 0 (some 0) ⟨0, 0⟩ [true, false] rfl⟩

/-- C9: once the pair shrinker has switched to shrinking the second component
(`shrinkingFirst` is false), it never invokes ga's shrinker again — the
instrumentation log of ga's shrinker is unchanged by any further calls — and
all subsequently emitted candidates carry the same single first component. -/
theorem pairOf_secondPhase_frame [Inhabited α] [Inhabited β]
    (nextA : ShrinkFn σa α) (nextB : ShrinkFn σb β) (l : List Bool)
    (st : PairShrinkState (σa × List Bool) σb α β)
    (h : st.shrinkingFirst = false) :
    (runShrinker ⟨st, pairShrinkNext (logNext nextA) nextB⟩ l).2.state.sa.2 = st.sa.2 ∧
    ∀ out ∈ (runShrinker ⟨st, pairShrinkNext (logNext nextA) nextB⟩ l).1,
      out.2 = true → out.1.first = st.currentA := by
  obtain ⟨-, -, i3, i4⟩ := pairShrink_secondPhase (logNext nextA) nextB l st h
  exact ⟨by rw [i3], i4⟩

/-- Witness for C9 at a concrete instance: from a switched state with log
[true] and currentA = 4, two further calls leave the log at [true] and emit
only candidates with first component 4. -/
theorem pairOf_secondPhase_frame_witness :
    (⟨false, 4, 9, ((), [true]), 0⟩ :
      PairShrinkState (Unit × List Bool) Nat Nat Nat).shrinkingFirst = false ∧
    ((runShrinker ⟨⟨false, 4, 9, ((), [true]), 0⟩,
        pairShrinkNext (logNext neverNext) oneShotNextB⟩ [true, true]).2.state.sa.2 = [true] ∧
     ∀ out ∈ (runShrinker ⟨⟨false, 4, 9, ((), [true]), 0⟩,
        pairShrinkNext (logNext neverNext) oneShotNextB⟩ [true, true]).1,
       out.2 = true → out.1.first = 4) :=
  ⟨rfl, pairOf_secondPhase_frame neverNext oneShotNextB [true, true]
    ⟨false, 4, 9, ((), [true]), 0⟩ rfl⟩

/-- C3: on the call where ga's shrinker first reports exhaustion and the pair
shrinker switches to the second component, gb's shrinker is invoked with
`accept = false` on that very call, regardless of the `accept` argument the
caller passed (observed through the instrumented `logNext`). -/
theorem pairOf_switch_resets_accept [Inhabited α] [Inhabited β]
    (nextA : ShrinkFn σa α) (nextB : ShrinkFn σb β)
    (st : PairShrinkState σa (σb × List Bool) α β) (accept : Bool)
    (h : st.shrinkingFirst = true)
    (he : (nextA st.sa accept).2.1 = false) :
    ((pairShrinkNext nextA (logNext nextB) st accept).2.2).sb.2 = st.sb.2 ++ [false] := by
  rw [pairShrinkNext_switch _ _ _ _ h he]
  split <;> rfl

/-- Witness for C3 at a concrete instance: ga's shrinker exhausts immediately,
the caller passes `accept = true`, yet the log shows gb's shrinker received
`false`. -/
theorem pairOf_switch_resets_accept_witness :
    (((fun (u : Unit) (_ : Bool) => ((0 : Nat), false, u)) () true).2.1 = false) ∧
    ((pairShrinkNext (fun (u : Unit) (_ : Bool) => ((0 : Nat), false, u))
        (logNext (fun (u : Unit) (_ : Bool) => ((7 : Nat), true, u)))
        ⟨true, 4, 9, (), ((), [])⟩ true).2.2).sb.2 = [] ++ [false] :=
  ⟨rfl, pairOf_switch_resets_accept
    (fun (u : Unit) (_ : Bool) => ((0 : Nat), false, u))
    (fun (u : Unit) (_ : Bool) => ((7 : Nat), true, u))
    ⟨true, 4, 9, (), ((), [])⟩ true rfl rfl⟩

/-- C4: PairOf's Generate is pure with respect to `(rng-state, size)` when
given a non-nil rng: the substituted fresh source `nilSub` (the only modelled
source of impurity) is unused, so two calls with identical rng state and size
return the same pair, and shrinkers emitting the same candidate sequence for
the same `accept` inputs. The component generators are pure by the functional
embedding, which encodes the claim's purity assumption on `ga` and `gb`. -/
theorem pairOf_generate_pure [Inhabited α] [Inhabited β]
    (ga : GenFn Rng σa α) (gb : GenFn Rng σb β)
    (n₁ n₂ : Rng) (r : Rng) (sz : Size) :
    PairOf ga gb n₁ (some r) sz = PairOf ga gb n₂ (some r) sz ∧
    ∀ accs : List Bool,
      runShrinker (PairOf ga gb n₁ (some r) sz).2.1 accs =
      runShrinker (PairOf ga gb n₂ (some r) sz).2.1 accs :=
  ⟨rfl, fun _ => rfl⟩

/-- C7: TupleOf is the same generator as PairOf: for every rng (nil or not),
nil substitute and size, Generate returns equal pairs, equal rng states, and
shrinkers with equal candidate traces on every `accept` sequence. -/
theorem tupleOf_alias [Inhabited α] [Inhabited β]
    (ga : GenFn Rng σa α) (gb : GenFn Rng σb β)
    (nilSub : Rng) (r? : Option Rng) (sz : Size) :
    TupleOf ga gb nilSub r? sz = PairOf ga gb nilSub r? sz ∧
    (TupleOf ga gb nilSub r? sz).1 = (PairOf ga gb nilSub r? sz).1 ∧
    ∀ accs : List Bool,
      runShrinker (TupleOf ga gb nilSub r? sz).2.1 accs =
      runShrinker (PairOf ga gb nilSub r? sz).2.1 accs :=
  ⟨rfl, rfl, fun _ => rfl⟩

/-- C10: with a nil rng, PairOf's Generate does not fail: it behaves exactly
as a call whose rng is the freshly seeded substitute source, still returning
a pair with a shrinker; consequently two nil-rng calls whose fresh sources
differ need not return equal values (the nil-rng path is not reproducible). -/
theorem pairOf_nil_rng :
    (∀ (Rng σa σb α β : Type) (_ : Inhabited α) (_ : Inhabited β)
       (ga : GenFn Rng σa α) (gb : GenFn Rng σb β) (nilSub w : Rng) (sz : Size),
       PairOf ga gb nilSub none sz = PairOf ga gb w (some nilSub) sz) ∧
    (PairOf rngGen rngGen 0 none ⟨0, 0⟩).1 ≠ (PairOf rngGen rngGen 1 none ⟨0, 0⟩).1 :=
  ⟨fun _ _ _ _ _ _ _ _ _ _ _ _ => rfl, by decide⟩

/-- After the switch, the pair shrinker is exhausted within gb's bound. -/
theorem pairShrink_phase2_exhausts [Inhabited α] [Inhabited β]
    (nextA : ShrinkFn σa α) (nextB : ShrinkFn σb β) :
    ∀ (n : Nat) (st : PairShrinkState σa σb α β), st.shrinkingFirst = false →
      exhaustsWithin ⟨st.sb, nextB⟩ n →
      exhaustsWithin ⟨st, pairShrinkNext nextA nextB⟩ n := by
  intro n
  induction n with
  | zero => intro st h hb; exact absurd hb (fun hx => exhaustsWithin_zero_absurd _ hx)
  | succ k ih =>
      intro st h hb l hl
      cases l with
      | nil => cases hl
      | cons acc l2 =>
          have hl2 : l2.length = k := by simpa using hl
          rw [runShrinker_cons, pairShrinkNext_phase2 nextA nextB st acc h]
          cases hb2 : (nextB st.sb acc).2.1 with
          | false =>
              simp only [hb2, Bool.false_eq_true, if_false]
              exact ⟨(⟨default, default⟩, false), List.mem_cons_self _ _, rfl⟩
          | true =>
              simp only [hb2, if_true]
              have hb' := exhaustsWithin_step ⟨st.sb, nextB⟩ k hb acc hb2
              obtain ⟨out, hm, hf⟩ :=
                ih { st with currentB := (nextB st.sb acc).1, sb := (nextB st.sb acc).2.2 }
                  h hb' l2 hl2
              exact ⟨out, List.mem_cons_of_mem _ hm, hf⟩

/-- While in the first phase, the pair shrinker is exhausted within the sum
of ga's and gb's bounds. -/
theorem pairShrink_phase1_exhausts [Inhabited α] [Inhabited β]
    (nextA : ShrinkFn σa α) (nextB : ShrinkFn σb β) :
    ∀ (m n : Nat) (st : PairShrinkState σa σb α β), st.shrinkingFirst = true →
      exhaustsWithin ⟨st.sa, nextA⟩ m →
      exhaustsWithin ⟨st.sb, nextB⟩ n →
      exhaustsWithin ⟨st, pairShrinkNext nextA nextB⟩ (m + n) := by
  intro m
  induction m with
  | zero => intro n st h ha hb; exact absurd ha (fun hx => exhaustsWithin_zero_absurd _ hx)
  | succ k ih =>
      intro n st h ha hb l hl
      cases l with
      | nil => simp at hl; omega
      | cons acc l2 =>
          have hl2 : l2.length = k + n := by simp at hl; omega
          rw [runShrinker_cons]
          cases haok : (nextA st.sa acc).2.1 with
          | true =>
              rw [pairShrinkNext_phase1_emit nextA nextB st acc h haok]
              have ha' := exhaustsWithin_step ⟨st.sa, nextA⟩ k ha acc haok
              obtain ⟨out, hm, hf⟩ :=
                ih n { st with currentA := (nextA st.sa acc).1, sa := (nextA st.sa acc).2.2 }
                  h ha' hb l2 hl2
              exact ⟨out, List.mem_cons_of_mem _ hm, hf⟩
          | false =>
              rw [pairShrinkNext_switch nextA nextB st acc h haok]
              cases hbok : (nextB st.sb false).2.1 with
              | false =>
                  simp only [hbok, Bool.false_eq_true, if_false]
                  exact ⟨(⟨default, default⟩, false), List.mem_cons_self _ _, rfl⟩
              | true =>
                  simp only [hbok, if_true]
                  cases n with
                  | zero => exact absurd hb (fun hx => exhaustsWithin_zero_absurd _ hx)
                  | succ n2 =>
                      have hb' := exhaustsWithin_step ⟨st.sb, nextB⟩ n2 hb false hbok
                      have hv := pairShrink_phase2_exhausts nextA nextB n2
                        { shrinkingFirst := false, currentA := st.currentA,
                          currentB := (nextB st.sb false).1,
                          sa := (nextA st.sa acc).2.2, sb := (nextB st.sb false).2.2 }
                        rfl hb'
                      have hv2 := exhaustsWithin_mono _ n2 (k + (n2 + 1)) (by omega) hv
                      obtain ⟨out, hm, hf⟩ := hv2 l2 hl2
                      exact ⟨out, List.mem_cons_of_mem _ hm, hf⟩

/-- C5: if ga's shrinker reaches `(_, false)` within `m` calls on every
accept sequence and gb's within `n`, then the shrinker returned by PairOf
reaches `(_, false)` within `m + n` calls on every accept sequence. A uniform
bound over the finitely branching accept space is the same as reaching
`(_, false)` in finitely many steps along every accept path. -/
theorem pairOf_shrink_terminates [Inhabited α] [Inhabited β]
    (ga : GenFn Rng σa α) (gb : GenFn Rng σb β)
    (nilSub : Rng) (r? : Option Rng) (sz : Size) (m n : Nat)
    (ha : exhaustsWithin (ga (r?.getD nilSub) sz).2.1 m)
    (hb : exhaustsWithin (gb (ga (r?.getD nilSub) sz).2.2 sz).2.1 n) :
    exhaustsWithin (PairOf ga gb nilSub r? sz).2.1 (m + n) :=
  pairShrink_phase1_exhausts
    (ga (r?.getD nilSub) sz).2.1.next
    (gb (ga (r?.getD nilSub) sz).2.2 sz).2.1.next m n
    ⟨true, (ga (r?.getD nilSub) sz).1, (gb (ga (r?.getD nilSub) sz).2.2 sz).1,
     (ga (r?.getD nilSub) sz).2.1.state,
     (gb (ga (r?.getD nilSub) sz).2.2 sz).2.1.state⟩ rfl ha hb

/-- A shrinker that always reports exhaustion reaches `(_, false)` within one
call on every accept sequence. -/
theorem neverNext_exhausts_one : exhaustsWithin (⟨(), neverNext⟩ : Shrinker Unit Nat) 1 := by
  intro l hl
  cases l with
  | nil => cases hl
  | cons a t =>
      cases t with
      | nil => exact ⟨(0, false), List.mem_cons_self _ _, rfl⟩
      | cons c t2 => simp at hl

/-- Witness for C5 at a concrete instance: two constant generators whose
shrinkers are exhausted within one call; the pair shrinker is exhausted
within two. -/
theorem pairOf_shrink_terminates_witness :
    exhaustsWithin (constGen 42 0 ⟨0, 0⟩).2.1 1 ∧
    exhaustsWithin (constGen 7 ((constGen 42 : GenFn Nat Unit Nat) 0 ⟨0, 0⟩).2.2 ⟨0, 0⟩).2.1 1 ∧
    exhaustsWithin (PairOf (constGen 42) (constGen 7) 0 (some 0) ⟨0, 0⟩).2.1 (1 + 1) :=
  ⟨neverNext_exhausts_one, neverNext_exhausts_one,
   pairOf_shrink_terminates (constGen 42) (constGen 7) 0 (some 0) ⟨0, 0⟩ 1 1
     neverNext_exhausts_one neverNext_exhausts_one⟩

theorem allFalseFrom_step (next : ShrinkFn σ α) (s : σ) (h : allFalseFrom next s)
    (acc : Bool) :
    (next s acc).2.1 = false ∧ allFalseFrom next (next s acc).2.2 := by
  constructor
  · exact h [acc] ((next s acc).1, (next s acc).2.1) (List.mem_cons_self _ _)
  · intro l out hout
    exact h (acc :: l) out (List.mem_cons_of_mem _ hout)

/-- Once in the second phase with an exhausted gb shrinker, every call of the
pair shrinker reports `more = false`. -/
theorem pairShrink_dead [Inhabited α] [Inhabited β]
    (nextA : ShrinkFn σa α) (nextB : ShrinkFn σb β) (l : List Bool)
    (st : PairShrinkState σa σb α β)
    (h : st.shrinkingFirst = false) (hb : allFalseFrom nextB st.sb) :
    ∀ out ∈ (runShrinker ⟨st, pairShrinkNext nextA nextB⟩ l).1, out.2 = false := by
  induction l generalizing st with
  | nil => intro out hout; cases hout
  | cons acc t ih =>
      rw [runShrinker_cons, pairShrinkNext_phase2 nextA nextB st acc h]
      have hstep := allFalseFrom_step nextB st.sb hb acc
      simp only [hstep.1, Bool.false_eq_true, if_false]
      intro out hout
      rcases List.mem_cons.mp hout with hh | hm
      · rw [hh]
      · exact ih { st with sb := (nextB st.sb acc).2.2 } h hstep.2 out hm

/-- State-level form of C6: a call of the pair shrinker that returns
`(_, false)` leaves a state from which every further call returns
`(_, false)`, provided the component shrinkers are sticky after their own
exhaustion. -/
theorem pairShrink_sticky_aux [Inhabited α] [Inhabited β]
    (nextA : ShrinkFn σa α) (nextB : ShrinkFn σb β)
    (hA : deadAfterFalse nextA) (hB : deadAfterFalse nextB)
    (st : PairShrinkState σa σb α β) (acc : Bool)
    (hdone : (pairShrinkNext nextA nextB st acc).2.1 = false) :
    ∀ l : List Bool,
      ∀ out ∈ (runShrinker ⟨(pairShrinkNext nextA nextB st acc).2.2,
          pairShrinkNext nextA nextB⟩ l).1, out.2 = false := by
  cases hsf : st.shrinkingFirst with
  | true =>
      cases ha : (nextA st.sa acc).2.1 with
      | true =>
          rw [pairShrinkNext_phase1_emit nextA nextB st acc hsf ha] at hdone
          cases hdone
      | false =>
          rw [pairShrinkNext_switch nextA nextB st acc hsf ha] at hdone ⊢
          cases hb2 : (nextB st.sb false).2.1 with
          | true => rw [hb2] at hdone; simp at hdone
          | false =>
              simp only [hb2, Bool.false_eq_true, if_false]
              intro l
              exact pairShrink_dead nextA nextB l _ rfl (hB st.sb false hb2)
  | false =>
      rw [pairShrinkNext_phase2 nextA nextB st acc hsf] at hdone ⊢
      cases hb2 : (nextB st.sb acc).2.1 with
      | true => rw [hb2] at hdone; simp at hdone
      | false =>
          simp only [hb2, Bool.false_eq_true, if_false]
          intro l
          exact pairShrink_dead nextA nextB l _ hsf (hB st.sb acc hb2)

/-- C6: for the shrinker returned by PairOf, assuming ga's and gb's shrinkers
each return false on every call after first returning `more = false`, once
the pair shrinker returns `(_, false)` — at any point of any run — every
further call also returns `(_, false)`, for any accept arguments. -/
theorem pairOf_false_is_sticky [Inhabited α] [Inhabited β]
    (ga : GenFn Rng σa α) (gb : GenFn Rng σb β)
    (nilSub : Rng) (r? : Option Rng) (sz : Size)
    (hA : deadAfterFalse (ga (r?.getD nilSub) sz).2.1.next)
    (hB : deadAfterFalse (gb (ga (r?.getD nilSub) sz).2.2 sz).2.1.next)
    (l1 : List Bool) (acc : Bool) (l2 : List Bool)
    (hdone : ((runShrinker (PairOf ga gb nilSub r? sz).2.1 l1).2.step acc).2.1 = false) :
    ∀ out ∈ (runShrinker
        ((runShrinker (PairOf ga gb nilSub r? sz).2.1 l1).2.step acc).2.2 l2).1,
      out.2 = false := by
  rw [runShrinker_snd_eta (PairOf ga gb nilSub r? sz).2.1 l1] at hdone ⊢
  exact pairShrink_sticky_aux _ _ hA hB _ acc hdone l2

/-- A shrinker that always reports exhaustion only produces `false` flags. -/
theorem neverNext_allFalse (u : Unit) : allFalseFrom neverNext u := by
  intro l
  induction l with
  | nil => intro out hout; cases hout
  | cons a t ih =>
      intro out hout
      rw [runShrinker_cons] at hout
      rcases List.mem_cons.mp hout with hh | hm
      · rw [hh]; rfl
      · exact ih out hm

theorem neverNext_dead : deadAfterFalse neverNext :=
  fun s acc _ => neverNext_allFalse ((neverNext s acc).2.2)

/-- Witness for C6 at a concrete instance: both constant generators' shrinkers
are sticky; the very first pair call returns `(_, false)` and the two calls
after it also return `(_, false)`. -/
theorem pairOf_false_is_sticky_witness :
    deadAfterFalse neverNext ∧
    ((runShrinker (PairOf (constGen 42) (constGen 7) 0 (some 0) ⟨0, 0⟩).2.1 []).2.step
        true).2.1 = false ∧
    ∀ out ∈ (runShrinker
        ((runShrinker (PairOf (constGen 42) (constGen 7) 0 (some 0) ⟨0, 0⟩).2.1 []).2.step
          true).2.2 [false, true]).1,
      out.2 = false :=
  ⟨neverNext_dead, rfl,
   pairOf_false_is_sticky (constGen 42) (constGen 7) 0 (some 0) ⟨0, 0⟩
     neverNext_dead neverNext_dead [] true [false, true] rfl⟩

/-- Monotonicity carries over from the component shrinkers to the pair
shrinker: if every candidate a component shrinker can ever emit (from any
reachable state) is bounded, then every pair candidate is componentwise
bounded. The states `st.sa` and `st.sb` are constrained to be reachable from
the component shrinkers' initial states by accept lists `pa` and `pb`. -/
theorem pairShrink_monotone_aux [Inhabited α] [Inhabited β]
    (nextA : ShrinkFn σa α) (nextB : ShrinkFn σb β)
    (sa0 : σa) (sb0 : σb) (sizeA : α → Nat) (sizeB : β → Nat) (a : α) (b : β)
    (hA : ∀ l : List Bool, ∀ out ∈ (runShrinker ⟨sa0, nextA⟩ l).1,
      out.2 = true → sizeA out.1 ≤ sizeA a)
    (hB : ∀ l : List Bool, ∀ out ∈ (runShrinker ⟨sb0, nextB⟩ l).1,
      out.2 = true → sizeB out.1 ≤ sizeB b)
    (l : List Bool) :
    ∀ (st : PairShrinkState σa σb α β) (pa pb : List Bool),
      (st.shrinkingFirst = true → (runShrinker ⟨sa0, nextA⟩ pa).2.state = st.sa) →
      (runShrinker ⟨sb0, nextB⟩ pb).2.state = st.sb →
      sizeA st.currentA ≤ sizeA a → sizeB st.currentB ≤ sizeB b →
      ∀ out ∈ (runShrinker ⟨st, pairShrinkNext nextA nextB⟩ l).1,
        out.2 = true → sizeA out.1.first ≤ sizeA a ∧ sizeB out.1.second ≤ sizeB b := by
  induction l with
  | nil => intro st pa pb hra hrb hca hcb out hout; cases hout
  | cons acc t ih =>
      intro st pa pb hra hrb hca hcb out hout
      rw [runShrinker_cons] at hout
      cases hsf : st.shrinkingFirst with
      | true =>
          have hsa := hra hsf
          cases haok : (nextA st.sa acc).2.1 with
          | true =>
              rw [pairShrinkNext_phase1_emit nextA nextB st acc hsf haok] at hout
              have hmem := run_snoc_emit nextA sa0 pa acc
              rw [hsa] at hmem
              have hna : sizeA (nextA st.sa acc).1 ≤ sizeA a :=
                hA (pa ++ [acc]) _ hmem haok
              rcases List.mem_cons.mp hout with hh | hm
              · rw [hh]; intro _; exact ⟨hna, hcb⟩
              · refine ih
                  { st with currentA := (nextA st.sa acc).1, sa := (nextA st.sa acc).2.2 }
                  (pa ++ [acc]) pb ?_ hrb hna hcb out hm
                intro _
                rw [run_snoc_state, hsa]
          | false =>
              rw [pairShrinkNext_switch nextA nextB st acc hsf haok] at hout
              have hmemb := run_snoc_emit nextB sb0 pb false
              rw [hrb] at hmemb
              cases hbok : (nextB st.sb false).2.1 with
              | true =>
                  simp only [hbok, if_true] at hout
                  have hnb : sizeB (nextB st.sb false).1 ≤ sizeB b :=
                    hB (pb ++ [false]) _ hmemb hbok
                  rcases List.mem_cons.mp hout with hh | hm
                  · rw [hh]; intro _; exact ⟨hca, hnb⟩
                  · refine ih
                      { shrinkingFirst := false, currentA := st.currentA,
                        currentB := (nextB st.sb false).1,
                        sa := (nextA st.sa acc).2.2, sb := (nextB st.sb false).2.2 }
                      pa (pb ++ [false]) ?_ ?_ hca hnb out hm
                    · intro hx; cases hx
                    · rw [run_snoc_state, hrb]
              | false =>
                  simp only [hbok, Bool.false_eq_true, if_false] at hout
                  rcases List.mem_cons.mp hout with hh | hm
                  · rw [hh]; intro hx; cases hx
                  · refine ih
                      { shrinkingFirst := false, currentA := st.currentA,
                        currentB := st.currentB,
                        sa := (nextA st.sa acc).2.2, sb := (nextB st.sb false).2.2 }
                      pa (pb ++ [false]) ?_ ?_ hca hcb out hm
                    · intro hx; cases hx
                    · rw [run_snoc_state, hrb]
      | false =>
          rw [pairShrinkNext_phase2 nextA nextB st acc hsf] at hout
          have hmemb := run_snoc_emit nextB sb0 pb acc
          rw [hrb] at hmemb
          cases hbok : (nextB st.sb acc).2.1 with
          | true =>
              simp only [hbok, if_true] at hout
              have hnb : sizeB (nextB st.sb acc).1 ≤ sizeB b :=
                hB (pb ++ [acc]) _ hmemb hbok
              rcases List.mem_cons.mp hout with hh | hm
              · rw [hh]; intro _; exact ⟨hca, hnb⟩
              · refine ih
                  { st with currentB := (nextB st.sb acc).1, sb := (nextB st.sb acc).2.2 }
                  pa (pb ++ [acc]) ?_ ?_ hca hnb out hm
                · intro hx; rw [hsf] at hx; cases hx
                · rw [run_snoc_state, hrb]
          | false =>
              simp only [hbok, Bool.false_eq_true, if_false] at hout
              rcases List.mem_cons.mp hout with hh | hm
              · rw [hh]; intro hx; cases hx
              · refine ih { st with sb := (nextB st.sb acc).2.2 }
                  pa (pb ++ [acc]) ?_ ?_ hca hcb out hm
                · intro hx; rw [hsf] at hx; cases hx
                · rw [run_snoc_state, hrb]

/-- C8: if every candidate ga's shrinker emits is no larger than the
originally generated first value, and every candidate gb's shrinker emits is
no larger than the originally generated second value, each under its
component's size function, then every candidate emitted by the PairOf
shrinker is componentwise no larger than the originally generated pair. -/
theorem pairOf_shrink_monotone [Inhabited α] [Inhabited β]
    (ga : GenFn Rng σa α) (gb : GenFn Rng σb β)
    (nilSub : Rng) (r? : Option Rng) (sz : Size)
    (sizeA : α → Nat) (sizeB : β → Nat)
    (hA : ∀ l : List Bool, ∀ out ∈ (runShrinker (ga (r?.getD nilSub) sz).2.1 l).1,
      out.2 = true → sizeA out.1 ≤ sizeA (PairOf ga gb nilSub r? sz).1.first)
    (hB : ∀ l : List Bool,
      ∀ out ∈ (runShrinker (gb (ga (r?.getD nilSub) sz).2.2 sz).2.1 l).1,
      out.2 = true → sizeB out.1 ≤ sizeB (PairOf ga gb nilSub r? sz).1.second)
    (l : List Bool) :
    ∀ out ∈ (runShrinker (PairOf ga gb nilSub r? sz).2.1 l).1,
      out.2 = true →
      sizeA out.1.first ≤ sizeA (PairOf ga gb nilSub r? sz).1.first ∧
      sizeB out.1.second ≤ sizeB (PairOf ga gb nilSub r? sz).1.second :=
  pairShrink_monotone_aux
    (ga (r?.getD nilSub) sz).2.1.next
    (gb (ga (r?.getD nilSub) sz).2.2 sz).2.1.next
    (ga (r?.getD nilSub) sz).2.1.state
    (gb (ga (r?.getD nilSub) sz).2.2 sz).2.1.state
    sizeA sizeB (ga (r?.getD nilSub) sz).1 (gb (ga (r?.getD nilSub) sz).2.2 sz).1
    hA hB l
    ⟨true, (ga (r?.getD nilSub) sz).1, (gb (ga (r?.getD nilSub) sz).2.2 sz).1,
     (ga (r?.getD nilSub) sz).2.1.state,
     (gb (ga (r?.getD nilSub) sz).2.2 sz).2.1.state⟩
    [] [] (fun _ => rfl) rfl (Nat.le_refl _) (Nat.le_refl _)

/-- Candidates of the countdown shrinker are bounded by the start value. -/
theorem countdown_bounded (c : Nat) : ∀ (l : List Bool) (s : Nat), s ≤ c →
    ∀ out ∈ (runShrinker ⟨s, countdownNext⟩ l).1, out.2 = true → out.1 ≤ c := by
  intro l
  induction l with
  | nil => intro s hs out hout; cases hout
  | cons acc t ih =>
      intro s hs out hout
      rw [runShrinker_cons] at hout
      cases s with
      | zero =>
          rcases List.mem_cons.mp hout with hh | hm
          · rw [hh]; intro hx; cases hx
          · exact ih 0 hs out hm
      | succ k =>
          rcases List.mem_cons.mp hout with hh | hm
          · rw [hh]; intro _; exact Nat.le_of_succ_le hs
          · exact ih k (Nat.le_of_succ_le hs) out hm

/-- Witness for C8 at a concrete instance: both components count down from 2;
all candidates of a three-call run are componentwise bounded by (2, 2). -/
theorem pairOf_shrink_monotone_witness :
    (∀ l : List Bool, ∀ out ∈ (runShrinker (⟨2, countdownNext⟩ : Shrinker Nat Nat) l).1,
      out.2 = true → out.1 ≤ 2) ∧
    ∀ out ∈ (runShrinker (PairOf countGen countGen 0 (some 0) ⟨0, 0⟩).2.1
        [true, false, true]).1,
      out.2 = true → out.1.first ≤ 2 ∧ out.1.second ≤ 2 :=
  ⟨fun l out hout ht => countdown_bounded 2 l 2 (Nat.le_refl 2) out hout ht,
   pairOf_shrink_monotone countGen countGen 0 (some 0) ⟨0, 0⟩ (fun x => x) (fun x => x)
     (fun l out hout ht => countdown_bounded 2 l 2 (Nat.le_refl 2) out hout ht)
     (fun l out hout ht => countdown_bounded 2 l 2 (Nat.le_refl 2) out hout ht)
     [true, false, true]⟩

end Propx
